import Mathlib

/-!
Verification development for the `GRU` layer of pyGRU4REC
(src/modules/layer.py).

Tensors are shallowly embedded as nested lists of rationals: a vector is
a `List ℚ`, a matrix a list of rows, a rank-3 tensor a list of matrices.
The external tensor engine's primitives used by the layer (zero fill,
scatter assignment, elementwise arithmetic, affine transform, the GRU
cell recurrence, Bernoulli masking) are modelled by their documented
mathematical behaviour; the stochastic draws a call consumes are passed
in explicitly as inputs, and the two pointwise nonlinearities (sigmoid
and tanh) are carried as function-valued parameters since none of the
layer's contracts depend on their numeric values.
-/

set_option autoImplicit false

namespace PyGRU4REC

abbrev Vec := List ℚ
abbrev Mat := List Vec
abbrev Tensor3 := List Mat

/-- Shape predicate for a matrix: `r` rows, each of width `c`. -/
def HasShape2 (m : Mat) (r c : Nat) : Prop :=
  m.length = r ∧ ∀ row ∈ m, row.length = c

/-- Shape predicate for a rank-3 tensor of shape `(a, b, c)`. -/
def HasShape3 (t : Tensor3) (a b c : Nat) : Prop :=
  t.length = a ∧ ∀ m ∈ t, HasShape2 m b c

instance (m : Mat) (r c : Nat) : Decidable (HasShape2 m r c) := by
  unfold HasShape2; infer_instance

instance (t : Tensor3) (a b c : Nat) : Decidable (HasShape3 t a b c) := by
  unfold HasShape3; infer_instance

/-- Entry `(i, j)` of a matrix, defaulting to `0` out of bounds. -/
def entry2 (m : Mat) (i j : Nat) : ℚ :=
  (m.getD i []).getD j 0

/-! ### One-hot embedding (`GRU.emb`, `GRU.init_emb`)

The layer owns a single persistent `(B, C)` buffer
(`self.onehot_buffer`).  `emb` flushes it with `zero_()`, scatters `1`
at column `input[i]` of row `i`, and returns a `Variable` wrapping the
very same storage.  We model the layer state as the buffer contents and
the returned `Variable` as a handle that reads whatever the buffer
currently holds. -/

/-- The mutable part of the layer that `emb` touches: the contents of
`self.onehot_buffer`. -/
structure EmbState where
  onehot_buffer : Mat
deriving DecidableEq, Repr

/-- A handle to the layer's single one-hot buffer.  `Variable(self.onehot_buffer)`
shares storage with the buffer, so the only thing a returned value
carries is the identity of that one buffer. -/
inductive BufferRef where
  | theBuffer
deriving DecidableEq, Repr

/-- Dereference a returned handle in a given layer state: reading the
`Variable` yields the buffer's current contents. -/
def BufferRef.read : BufferRef → EmbState → Mat
  | _, s => s.onehot_buffer

/-- Model of `tensor.zero_()`: every entry of the buffer becomes `0`
(shape preserved). -/
def zeroAll (m : Mat) : Mat :=
  m.map fun row => row.map fun _ => (0 : ℚ)

/-- Model of the in-range precondition of `tensor.scatter_(1, index, v)`
with an index column of shape `(B', 1)`: the index column must not be
taller than the buffer, and every index value must lie inside its row.
The engine raises a range fault when this fails. -/
def scatterInRange (m : Mat) (index : List ℤ) : Prop :=
  index.length ≤ m.length ∧ ∀ p ∈ index.zip m, 0 ≤ p.1 ∧ p.1 < (p.2.length : ℤ)

instance (m : Mat) (index : List ℤ) : Decidable (scatterInRange m index) := by
  unfold scatterInRange; infer_instance

/-- Row-by-row write of `scatter_(1, index, v)`: row `i` gets `v` at
column `index[i]`; rows beyond the index column are untouched. -/
def scatterRows : Mat → List ℤ → ℚ → Mat
  | m, [], _ => m
  | [], _ :: _, _ => []
  | row :: m, j :: js, v => row.set j.toNat v :: scatterRows m js v

/-- Model of `tensor.scatter_(1, index, v)` on a `(B, C)` buffer with an
index column `(B', 1)`: fails with a range fault unless every index is
in range, otherwise writes `v` into column `index[i]` of row `i`. -/
def scatter1 (m : Mat) (index : List ℤ) (v : ℚ) : Except String Mat :=
  if scatterInRange m index then Except.ok (scatterRows m index v)
  else Except.error "scatter index out of range"

/-- Model of `GRU.emb` (layer.py lines 82-100): flush the persistent
buffer with `zero_()`, scatter `1` at `input[i]` for each row `i`, and
return a `Variable` aliasing the buffer together with the new state. -/
def GRU.emb (s : EmbState) (input : List ℤ) :
    Except String (BufferRef × EmbState) :=
  let flushed := zeroAll s.onehot_buffer
  match scatter1 flushed input 1 with
  | Except.ok buf => Except.ok (BufferRef.theBuffer, ⟨buf⟩)
  | Except.error e => Except.error e

/-- Model of `GRU.init_emb` (layer.py lines 102-109): allocates the
`(B, C)` buffer with `torch.FloatTensor(B, C)`, i.e. with uninitialized
contents; `junk` supplies whatever garbage the fresh allocation holds. -/
def GRU.init_emb (batch_size output_size : Nat) (junk : Nat → Nat → ℚ) : EmbState :=
  ⟨(List.range batch_size).map fun i =>
    (List.range output_size).map fun j => junk i j⟩

/-! ### Forward step (`GRU.forward`)

The forward pass delegates to the engine's affine transform
(`nn.Linear`), pointwise `tanh`, Bernoulli masking and the stacked GRU
recurrence (`nn.GRU`) for a single time step.  The `unsqueeze(0)` /
`view(-1, H)` reshapes wrap and unwrap a length-one time axis and are
identities in this single-step model.  The Bernoulli draws a call
consumes (the `(B, 1)` input-dropout coins and the inter-layer
hidden-dropout masks) are passed in explicitly as `ForwardRand`. -/

/-- Dot product of two vectors (truncating to the shorter one, as the
engine's kernels never see mismatched operands). -/
def dot (x y : Vec) : ℚ :=
  (List.zipWith (fun a b => a * b) x y).sum

/-- Affine transform `W x + b` with weight rows `W` and bias `b`
(`nn.Linear` and the gate pre-activations of the GRU cell). -/
def linear (W : Mat) (b : Vec) (x : Vec) : Vec :=
  List.zipWith (fun row bi => dot row x + bi) W b

/-- Elementwise sum of two vectors. -/
def vadd (x y : Vec) : Vec := List.zipWith (fun a b => a + b) x y

/-- Elementwise product of two vectors. -/
def vmul (x y : Vec) : Vec := List.zipWith (fun a b => a * b) x y

/-- Pointwise `1 - x`. -/
def oneMinus (x : Vec) : Vec := x.map fun a => 1 - a

/-- Weights of one GRU cell, per gate: reset (`r`), update (`z`) and new
(`n`) gates, each with an input-to-hidden and a hidden-to-hidden affine
part, following the engine's documented cell equations. -/
structure GRUCellW where
  Wir : Mat
  Wiz : Mat
  Win : Mat
  Whr : Mat
  Whz : Mat
  Whn : Mat
  bir : Vec
  biz : Vec
  bin : Vec
  bhr : Vec
  bhz : Vec
  bhn : Vec

/-- One step of a single GRU cell on one batch row:
`r = sigmoid(Wir x + bir + Whr h + bhr)`,
`z = sigmoid(Wiz x + biz + Whz h + bhz)`,
`n = tanh(Win x + bin + r * (Whn h + bhn))`,
`h1 = (1 - z) * n + z * h`. -/
def gruCell (sigmoid tanh : ℚ → ℚ) (w : GRUCellW) (x h : Vec) : Vec :=
  let r := (vadd (linear w.Wir w.bir x) (linear w.Whr w.bhr h)).map sigmoid
  let z := (vadd (linear w.Wiz w.biz x) (linear w.Whz w.bhz h)).map sigmoid
  let n := (vadd (linear w.Win w.bin x) (vmul r (linear w.Whn w.bhn h))).map tanh
  vadd (vmul (oneMinus z) n) (vmul z h)

/-- All construction-time data of the layer that `forward` and
`init_hidden` read: the fixed dimensions, the dropout probabilities, the
learned weights of the recurrent stack and of the output head `h2o`,
and the two pointwise nonlinearities supplied by the engine. -/
structure GRUParams where
  input_size : Nat
  hidden_size : Nat
  output_size : Nat
  num_layers : Nat
  batch_size : Nat
  dropout_input : ℚ
  dropout_hidden : ℚ
  sigmoid : ℚ → ℚ
  tanh : ℚ → ℚ
  gruW : List GRUCellW
  h2oW : Mat
  h2oB : Vec

/-- Well-formedness of one cell's weights for hidden width `H`: every
gate has `H` output rows and an `H`-entry bias. -/
def CellWF (w : GRUCellW) (H : Nat) : Prop :=
  w.Wir.length = H ∧ w.Wiz.length = H ∧ w.Win.length = H ∧
  w.Whr.length = H ∧ w.Whz.length = H ∧ w.Whn.length = H ∧
  w.bir.length = H ∧ w.biz.length = H ∧ w.bin.length = H ∧
  w.bhr.length = H ∧ w.bhz.length = H ∧ w.bhn.length = H

/-- Well-formedness of the layer's learned weights, as `__init__`
creates them: one cell per stacked layer, each sized to `hidden_size`,
and an `(output_size, hidden_size)` output head with `output_size`
biases. -/
def GRUParams.WF (p : GRUParams) : Prop :=
  p.gruW.length = p.num_layers ∧
  (∀ w ∈ p.gruW, CellWF w p.hidden_size) ∧
  p.h2oW.length = p.output_size ∧ p.h2oB.length = p.output_size

instance (w : GRUCellW) (H : Nat) : Decidable (CellWF w H) := by
  unfold CellWF; infer_instance

instance (p : GRUParams) : Decidable p.WF := by
  unfold GRUParams.WF; infer_instance

/-- The Bernoulli draws one `forward` call consumes: one coin per batch
row for the input dropout (the `(B, 1)` `torch.bernoulli` draw), and one
`(B, H)` 0/1 mask per layer gap for the recurrent stack's inter-layer
dropout. -/
structure ForwardRand where
  inputCoins : List ℚ
  hiddenCoins : List Mat

/-- Input dropout (layer.py lines 59-62): the `(B, 1)` coin column is
expanded across the feature axis, so every feature of row `i` is
multiplied by the single coin of row `i`. -/
def inputDropout (coins : List ℚ) (embedded : Mat) : Mat :=
  List.zipWith (fun row c => row.map fun a => a * c) embedded coins

/-- The input-dropout stage of `forward`: applied only when the layer is
in training mode, identity otherwise. -/
def dropoutStage (training : Bool) (coins : List ℚ) (embedded : Mat) : Mat :=
  if training then inputDropout coins embedded else embedded

/-- Inter-layer dropout of the recurrent stack (`nn.GRU(dropout=...)`):
each element is multiplied by its 0/1 coin and rescaled by the keep
probability. -/
def interDropout (pdrop : ℚ) (mask : Mat) (x : Mat) : Mat :=
  List.zipWith (fun row mrow =>
    List.zipWith (fun a c => a * c / (1 - pdrop)) row mrow) x mask

/-- One time step of the stacked GRU (`self.gru(embedded, hidden)`):
layer `l` consumes the previous layer's output (with inter-layer
dropout between layers while training) and its own slice of the hidden
state; returns the top layer's output and the stacked new hidden
state. -/
def gruLayers (sigmoid tanh : ℚ → ℚ) (pdrop : ℚ) (training : Bool) :
    List GRUCellW → List Mat → Mat → Tensor3 → Mat × Tensor3
  | [], _, x, _ => (x, [])
  | w :: ws, coins, x, hs =>
    let h1 := List.zipWith (gruCell sigmoid tanh w) x (hs.headD [])
    let xNext := if training && !ws.isEmpty
      then interDropout pdrop (coins.headD []) h1 else h1
    let res := gruLayers sigmoid tanh pdrop training ws coins.tail xNext hs.tail
    (res.1, h1 :: res.2)

/-- Output head of `forward`: `tanh(h2o(output))`, a full `(B, C)` logit
matrix over the whole item vocabulary. -/
def fullLogit (p : GRUParams) (output : Mat) : Mat :=
  output.map fun row => (linear p.h2oW p.h2oB row).map p.tanh

/-- The sampling stage (`logit[:, target.view(-1)]`, layer.py lines
77-78): in training mode keep, for every row, only the columns named by
`target`; identity in inference mode. -/
def sampleStage (training : Bool) (target : List Nat) (logit : Mat) : Mat :=
  if training then logit.map (fun row => target.map fun t => row.getD t 0)
  else logit

/-- The `(B, C)` logit matrix `forward` computes before the sampling
stage: input dropout, recurrent update, output projection.  Two distinct
mode flags are read here, matching the source's two pieces of state:
`training` is the layer's own `self.training` (gating input dropout and,
in `GRU.forward`, the sampling stage), while `gruTraining` is the
`self.gru` submodule's module flag, which alone gates the stack's
inter-layer dropout.  `__init__` sets `self.training = training` but
creates `self.gru` in its default training mode, so the two flags can
disagree until `switch_mode` synchronizes them. -/
def forwardFull (p : GRUParams) (training gruTraining : Bool)
    (rand : ForwardRand) (embedded : Mat) (hidden : Tensor3) : Mat :=
  fullLogit p (gruLayers p.sigmoid p.tanh p.dropout_hidden gruTraining p.gruW
    rand.hiddenCoins (dropoutStage training rand.inputCoins embedded) hidden).1

/-- Model of `GRU.forward` (layer.py lines 46-80): input dropout while
the layer's `training` flag is set, one step of the stacked GRU (whose
inter-layer dropout is gated on the submodule's own `gruTraining` flag),
`tanh`-bounded output projection, and with `training` set restriction of
the logits to the target columns.  Returns `(logit, new_hidden)`. -/
def GRU.forward (p : GRUParams) (training gruTraining : Bool)
    (rand : ForwardRand) (embedded : Mat) (target : List Nat)
    (hidden : Tensor3) : Mat × Tensor3 :=
  (sampleStage training target
    (forwardFull p training gruTraining rand embedded hidden),
   (gruLayers p.sigmoid p.tanh p.dropout_hidden gruTraining p.gruW
     rand.hiddenCoins (dropoutStage training rand.inputCoins embedded) hidden).2)

/-- Model of `GRU.init_hidden` (layer.py lines 111-117): the all-zero
`(L, B, H)` tensor built from the construction-time dimensions. -/
def GRU.init_hidden (p : GRUParams) : Tensor3 :=
  List.replicate p.num_layers
    (List.replicate p.batch_size (List.replicate p.hidden_size (0 : ℚ)))

/-! ### Mode switching (`GRU.switch_mode`)

The mode-related mutable state of the layer: the stored `training`
flag, the `requires_grad` flag of every learnable parameter (in the
order `self.parameters()` yields them), and the recurrent stack's own
training flag (which controls its inter-layer dropout). -/

structure ModeState where
  training : Bool
  paramsGrad : List Bool
  gruTraining : Bool
deriving DecidableEq, Repr

/-- Mode-related state produced by `__init__(training=...)`: the stored
flag is the argument, every freshly created parameter has
`requires_grad = True` (the engine's default), and the recurrent
submodule is created in its default training mode. -/
def initState (training : Bool) (nParams : Nat) : ModeState :=
  ⟨training, List.replicate nParams true, true⟩

/-- Model of `GRU.switch_mode` (layer.py lines 119-135): negate the
stored flag, set `requires_grad` of every parameter to the new flag, and
propagate the new flag into the recurrent stack via `self.gru.train`. -/
def GRU.switch_mode (s : ModeState) : ModeState :=
  let t := !s.training
  ⟨t, s.paramsGrad.map fun _ => t, t⟩

/-- A concrete parameter record (all dimensions 1, identity
nonlinearities, unit weights) used to instantiate the theorems on
explicit inputs. -/
def wParams : GRUParams :=
  ⟨1, 1, 1, 1, 1, 0, 0, fun a => a, fun a => a,
   [⟨[[1]], [[1]], [[1]], [[1]], [[1]], [[1]], [1], [1], [1], [1], [1], [1]⟩],
   [[1]], [0]⟩

/-- A two-layer parameter record with nonzero hidden dropout, identity
nonlinearities and unit weights: with two stacked layers the recurrent
stack's inter-layer dropout consumes a Bernoulli mask whenever the
`gru` submodule is in training mode. -/
def cexParams : GRUParams :=
  ⟨1, 1, 1, 2, 1, 0, 1/2, fun a => a, fun a => a,
   [⟨[[1]], [[1]], [[1]], [[1]], [[1]], [[1]], [1], [1], [1], [1], [1], [1]⟩,
    ⟨[[1]], [[1]], [[1]], [[1]], [[1]], [[1]], [1], [1], [1], [1], [1], [1]⟩],
   [[1]], [0]⟩

/-- A second parameter record with the same `(L, B, H)` dimensions as
`wParams` but different weights, dropout rates and nonlinearities, used
to instantiate that `init_hidden` ignores everything but the
dimensions. -/
def wParams2 : GRUParams :=
  ⟨2, 1, 5, 1, 1, 1/2, 1/3, (fun a => a + 1), (fun _ => 0),
   [⟨[[2]], [[2]], [[2]], [[2]], [[2]], [[2]], [2], [2], [2], [2], [2], [2]⟩],
   [[3], [3], [3], [3], [3]], [7, 7, 7, 7, 7]⟩

/-! ### Lemmas about the buffer primitives -/

lemma zeroAll_length (m : Mat) : (zeroAll m).length = m.length := by
  simp [zeroAll]

lemma zeroAll_getD (m : Mat) (i : Nat) :
    (zeroAll m).getD i [] = (m.getD i []).map fun _ => (0 : ℚ) := by
  induction m generalizing i with
  | nil => simp [zeroAll]
  | cons r m ih =>
    cases i with
    | zero => rfl
    | succ i => simpa [zeroAll, List.getD_cons_succ] using ih i

lemma getD_map_zero (l : Vec) (j : Nat) :
    ((l.map fun _ => (0 : ℚ)).getD j 0) = 0 := by
  induction l generalizing j with
  | nil => rfl
  | cons a l ih =>
    cases j with
    | zero => rfl
    | succ j => simp [ih j]

lemma set_getD (l : Vec) (k j : Nat) (v : ℚ) (hk : k < l.length) :
    (l.set k v).getD j 0 = if j = k then v else l.getD j 0 := by
  induction l generalizing k j with
  | nil => simp at hk
  | cons a l ih =>
    cases k with
    | zero =>
      cases j with
      | zero => rfl
      | succ j => simp
    | succ k =>
      cases j with
      | zero => simp
      | succ j =>
        have hk' : k < l.length := by simpa using hk
        simpa [List.getD_cons_succ, Nat.succ_inj] using ih k j hk'

lemma scatterRows_length (m : Mat) (js : List ℤ) (v : ℚ) :
    (scatterRows m js v).length = m.length := by
  induction m generalizing js with
  | nil => cases js <;> rfl
  | cons r m ih =>
    cases js with
    | nil => rfl
    | cons j js => simp [scatterRows, ih]

lemma scatterRows_getD_lt (m : Mat) (js : List ℤ) (v : ℚ) (i : Nat)
    (hi : i < js.length) :
    (scatterRows m js v).getD i [] = (m.getD i []).set (js.getD i 0).toNat v := by
  induction js generalizing m i with
  | nil => simp at hi
  | cons j js ih =>
    cases m with
    | nil => cases i <;> simp [scatterRows]
    | cons r m =>
      cases i with
      | zero => rfl
      | succ i =>
        have hi' : i < js.length := by simpa using hi
        simpa [scatterRows, List.getD_cons_succ] using ih m i hi'

lemma scatterRows_getD_ge (m : Mat) (js : List ℤ) (v : ℚ) (i : Nat)
    (hi : js.length ≤ i) :
    (scatterRows m js v).getD i [] = m.getD i [] := by
  induction js generalizing m i with
  | nil => cases m <;> rfl
  | cons j js ih =>
    cases m with
    | nil => cases i <;> simp [scatterRows]
    | cons r m =>
      cases i with
      | zero => simp at hi
      | succ i =>
        have hi' : js.length ≤ i := by simpa using hi
        simpa [scatterRows, List.getD_cons_succ] using ih m i hi'

lemma mem_zip_of_mem_left {js : List ℤ} {m : Mat} {j : ℤ}
    (hj : j ∈ js) (hlen : js.length ≤ m.length) :
    ∃ row ∈ m, (j, row) ∈ js.zip m := by
  induction js generalizing m with
  | nil => simp at hj
  | cons a js ih =>
    cases m with
    | nil => simp at hlen
    | cons r m =>
      rcases List.mem_cons.mp hj with h | h
      · exact ⟨r, List.mem_cons_self r m, by simp [h]⟩
      · obtain ⟨row, hrow, hpair⟩ := ih h (by simpa using hlen)
        exact ⟨row, List.mem_cons_of_mem r hrow, List.mem_cons_of_mem _ hpair⟩

/-! ### Behaviour of `GRU.emb` -/

lemma scatterInRange_of_valid (m : Mat) (input : List ℤ) (B C : Nat)
    (hbuf : HasShape2 m B C) (hlen : input.length = B)
    (hr : ∀ j ∈ input, 0 ≤ j ∧ j < (C : ℤ)) :
    scatterInRange (zeroAll m) input := by
  constructor
  · rw [zeroAll_length, hbuf.1, hlen]
  · intro p hp
    obtain ⟨hp1, hp2⟩ := List.of_mem_zip hp
    obtain ⟨r, hr1, hr2⟩ := List.mem_map.mp hp2
    have hrl : p.2.length = C := by
      rw [← hr2]; simpa using hbuf.2 r hr1
    rw [hrl]
    exact hr p.1 hp1

lemma emb_ok (s : EmbState) (input : List ℤ) (B C : Nat)
    (hbuf : HasShape2 s.onehot_buffer B C) (hlen : input.length = B)
    (hr : ∀ j ∈ input, 0 ≤ j ∧ j < (C : ℤ)) :
    GRU.emb s input =
      Except.ok (BufferRef.theBuffer,
        ⟨scatterRows (zeroAll s.onehot_buffer) input 1⟩) := by
  have h := scatterInRange_of_valid s.onehot_buffer input B C hbuf hlen hr
  simp [GRU.emb, scatter1, h]

lemma scatter_zero_shape (m : Mat) (input : List ℤ) (v : ℚ) (B C : Nat)
    (hbuf : HasShape2 m B C) :
    HasShape2 (scatterRows (zeroAll m) input v) B C := by
  refine ⟨by rw [scatterRows_length, zeroAll_length, hbuf.1], ?_⟩
  intro row hrow
  obtain ⟨i, hi, hieq⟩ := List.mem_iff_getElem.mp hrow
  have hilen : i < m.length := by
    rw [scatterRows_length, zeroAll_length] at hi; exact hi
  have hgetD : (scatterRows (zeroAll m) input v).getD i [] = row := by
    rw [List.getD_eq_getElem _ _ hi]; exact hieq
  have hmem : m.getD i [] ∈ m := by
    rw [List.getD_eq_getElem _ _ hilen]; exact List.getElem_mem hilen
  have hmlen : (m.getD i []).length = C := hbuf.2 _ hmem
  by_cases hc : i < input.length
  · rw [scatterRows_getD_lt _ _ _ _ hc, zeroAll_getD] at hgetD
    rw [← hgetD, List.length_set, List.length_map]
    exact hmlen
  · rw [scatterRows_getD_ge _ _ _ _ (by omega), zeroAll_getD] at hgetD
    rw [← hgetD, List.length_map]
    exact hmlen

lemma scatter_zero_entry (m : Mat) (input : List ℤ) (B C : Nat)
    (hbuf : HasShape2 m B C) (hlen : input.length = B)
    (hr : ∀ j ∈ input, 0 ≤ j ∧ j < (C : ℤ)) (i j : Nat)
    (hi : i < B) :
    entry2 (scatterRows (zeroAll m) input 1) i j =
      if (j : ℤ) = input.getD i 0 then 1 else 0 := by
  have hi' : i < input.length := by omega
  have hval : input.getD i 0 ∈ input := by
    rw [List.getD_eq_getElem _ _ hi']; exact List.getElem_mem hi'
  obtain ⟨hv0, hvC⟩ := hr _ hval
  have hmi : i < m.length := by rw [hbuf.1]; exact hi
  have hmem : m.getD i [] ∈ m := by
    rw [List.getD_eq_getElem _ _ hmi]; exact List.getElem_mem hmi
  have hmlen : (m.getD i []).length = C := hbuf.2 _ hmem
  have hklen : (input.getD i 0).toNat < ((m.getD i []).map fun _ => (0 : ℚ)).length := by
    rw [List.length_map, hmlen]; omega
  rw [entry2, scatterRows_getD_lt _ _ _ _ hi', zeroAll_getD,
    set_getD _ _ _ _ hklen, getD_map_zero]
  have hiff : (j = (input.getD i 0).toNat) ↔ ((j : ℤ) = input.getD i 0) := by omega
  by_cases hc : (j : ℤ) = input.getD i 0
  · rw [if_pos (hiff.mpr hc), if_pos hc]
  · rw [if_neg (fun h => hc (hiff.mp h)), if_neg hc]

/-! ### Shape lemmas for the forward step -/

lemma linear_length (W : Mat) (b : Vec) (x : Vec) :
    (linear W b x).length = min W.length b.length := by
  simp [linear]

lemma vadd_length (x y : Vec) : (vadd x y).length = min x.length y.length := by
  simp [vadd]

lemma vmul_length (x y : Vec) : (vmul x y).length = min x.length y.length := by
  simp [vmul]

lemma oneMinus_length (x : Vec) : (oneMinus x).length = x.length := by
  simp [oneMinus]

lemma gruCell_def (sigmoid tanh : ℚ → ℚ) (w : GRUCellW) (x h : Vec) :
    gruCell sigmoid tanh w x h =
      vadd
        (vmul
          (oneMinus ((vadd (linear w.Wiz w.biz x) (linear w.Whz w.bhz h)).map sigmoid))
          ((vadd (linear w.Win w.bin x)
            (vmul ((vadd (linear w.Wir w.bir x) (linear w.Whr w.bhr h)).map sigmoid)
              (linear w.Whn w.bhn h))).map tanh))
        (vmul ((vadd (linear w.Wiz w.biz x) (linear w.Whz w.bhz h)).map sigmoid) h) :=
  rfl

lemma gruCell_length (sigmoid tanh : ℚ → ℚ) (w : GRUCellW) (H : Nat) (x h : Vec)
    (hw : CellWF w H) (hh : h.length = H) :
    (gruCell sigmoid tanh w x h).length = H := by
  obtain ⟨w1, w2, w3, w4, w5, w6, w7, w8, w9, w10, w11, w12⟩ := hw
  rw [gruCell_def]
  simp [vadd_length, vmul_length, oneMinus_length, linear_length,
    List.length_map, w1, w2, w3, w4, w5, w6, w7, w8, w9, w10, w11, w12, hh]

lemma zipWith_gruCell_shape (sigmoid tanh : ℚ → ℚ) (w : GRUCellW)
    (x : Mat) (hm : Mat) (B H : Nat)
    (hw : CellWF w H) (hx : x.length = B) (hms : HasShape2 hm B H) :
    HasShape2 (List.zipWith (gruCell sigmoid tanh w) x hm) B H := by
  refine ⟨by simp [hx, hms.1], ?_⟩
  intro row hrow
  obtain ⟨k, hk, hkeq⟩ := List.mem_iff_getElem.mp hrow
  rw [List.getElem_zipWith] at hkeq
  rw [← hkeq]
  refine gruCell_length sigmoid tanh w H _ _ hw (hms.2 _ (List.getElem_mem ?_))
  simp at hk
  omega

lemma interDropout_length (pdrop : ℚ) (mask x : Mat) :
    (interDropout pdrop mask x).length = min x.length mask.length := by
  simp [interDropout]

lemma gruLayers_shape (sigmoid tanh : ℚ → ℚ) (pdrop : ℚ) (training : Bool)
    (B H : Nat) :
    ∀ (ws : List GRUCellW) (coins : List Mat) (x : Mat) (hs : Tensor3),
    (∀ w ∈ ws, CellWF w H) → x.length = B →
    hs.length = ws.length → (∀ m ∈ hs, HasShape2 m B H) →
    (∀ cm ∈ coins, B ≤ cm.length) → ws.length - 1 ≤ coins.length →
    (gruLayers sigmoid tanh pdrop training ws coins x hs).1.length = B ∧
    HasShape3 (gruLayers sigmoid tanh pdrop training ws coins x hs).2
      ws.length B H := by
  intro ws
  induction ws with
  | nil =>
    intro coins x hs _ hx _ _ _ _
    exact ⟨hx, by simp [gruLayers, HasShape3]⟩
  | cons w ws ih =>
    intro coins x hs hw hx hlen hshape hcoins hcl
    cases hs with
    | nil => simp at hlen
    | cons hm tl =>
      have hms : HasShape2 hm B H := hshape hm (List.mem_cons_self hm tl)
      have hh1 : HasShape2 (List.zipWith (gruCell sigmoid tanh w) x hm) B H :=
        zipWith_gruCell_shape sigmoid tanh w x hm B H
          (hw w (List.mem_cons_self w ws)) hx hms
      have hcl' : ws.length ≤ coins.length := by simpa using hcl
      have hxnext : (if training && !ws.isEmpty
          then interDropout pdrop (coins.headD [])
            (List.zipWith (gruCell sigmoid tanh w) x hm)
          else List.zipWith (gruCell sigmoid tanh w) x hm).length = B := by
        split
        · rename_i hc
          have hwsne : ws ≠ [] := by
            intro hws
            rw [hws] at hc
            simp at hc
          have hcoinsne : coins ≠ [] := by
            intro hcn
            rw [hcn] at hcl'
            simp at hcl'
            exact hwsne hcl'
          obtain ⟨c, ctl, hc2⟩ := List.exists_cons_of_ne_nil hcoinsne
          subst hc2
          have hcB := hcoins c (List.mem_cons_self c ctl)
          rw [interDropout_length]
          simp [hh1.1]
          omega
        · exact hh1.1
      have ihres := ih coins.tail _ tl
        (fun v hv => hw v (List.mem_cons_of_mem w hv)) hxnext
        (by simpa using hlen)
        (fun m hm2 => hshape m (List.mem_cons_of_mem hm hm2))
        (fun cm hcm => hcoins cm (List.mem_of_mem_tail hcm))
        (by simp [List.length_tail]; omega)
      have hunf : gruLayers sigmoid tanh pdrop training (w :: ws) coins x (hm :: tl) =
          ((gruLayers sigmoid tanh pdrop training ws coins.tail
              (if training && !ws.isEmpty
                then interDropout pdrop (coins.headD [])
                  (List.zipWith (gruCell sigmoid tanh w) x hm)
                else List.zipWith (gruCell sigmoid tanh w) x hm) tl).1,
           List.zipWith (gruCell sigmoid tanh w) x hm ::
            (gruLayers sigmoid tanh pdrop training ws coins.tail
              (if training && !ws.isEmpty
                then interDropout pdrop (coins.headD [])
                  (List.zipWith (gruCell sigmoid tanh w) x hm)
                else List.zipWith (gruCell sigmoid tanh w) x hm) tl).2) := rfl
      rw [hunf]
      refine ⟨ihres.1, ⟨by simp only [List.length_cons, ihres.2.1], ?_⟩⟩
      intro m hmem
      rcases List.mem_cons.mp hmem with hfirst | hrest
      · rw [hfirst]; exact hh1
      · exact ihres.2.2 m hrest

lemma dropoutStage_length (training : Bool) (coins : List ℚ) (embedded : Mat)
    (B : Nat) (he : embedded.length = B) (hc : coins.length = B) :
    (dropoutStage training coins embedded).length = B := by
  cases training with
  | false => simpa [dropoutStage] using he
  | true => simp [dropoutStage, inputDropout, he, hc]

lemma fullLogit_shape (p : GRUParams) (output : Mat) (B : Nat)
    (hW : p.h2oW.length = p.output_size) (hb : p.h2oB.length = p.output_size)
    (ho : output.length = B) :
    HasShape2 (fullLogit p output) B p.output_size := by
  refine ⟨by simp [fullLogit, ho], ?_⟩
  intro row hrow
  obtain ⟨orow, _, hroweq⟩ := List.mem_map.mp hrow
  rw [← hroweq]
  simp [linear_length, hW, hb]

lemma sampleStage_shape (training : Bool) (target : List Nat) (logit : Mat)
    (B C : Nat) (hl : HasShape2 logit B C) (ht : target.length = B) :
    HasShape2 (sampleStage training target logit) B
      (if training then B else C) := by
  cases training with
  | false => simpa [sampleStage] using hl
  | true =>
    refine ⟨by simp [sampleStage, hl.1], ?_⟩
    intro row hrow
    simp only [sampleStage, if_true, List.mem_map] at hrow
    obtain ⟨orow, _, hroweq⟩ := hrow
    rw [← hroweq]
    simp [ht]

/-- C2: for every valid input (`embedded` of shape `(B, input_size)`,
`target` of length `B`, `hidden` of shape `(L, B, H)`, and a randomness
source of the size `forward` draws), `forward` returns a hidden state of
shape `(L, B, H)` in both training and inference mode — whatever the
recurrent submodule's own mode flag — and the returned logits have shape
`(B, B)` when the training flag is set and `(B, C)` when it is not. -/
theorem forward_shapes (p : GRUParams) (training gruTraining : Bool)
    (rand : ForwardRand)
    (embedded : Mat) (target : List Nat) (hidden : Tensor3)
    (hp : p.WF)
    (he : HasShape2 embedded p.batch_size p.input_size)
    (ht : target.length = p.batch_size)
    (hh : HasShape3 hidden p.num_layers p.batch_size p.hidden_size)
    (hic : rand.inputCoins.length = p.batch_size)
    (hhc : ∀ cm ∈ rand.hiddenCoins, p.batch_size ≤ cm.length)
    (hhcl : p.num_layers - 1 ≤ rand.hiddenCoins.length) :
    HasShape3 (GRU.forward p training gruTraining rand embedded target hidden).2
      p.num_layers p.batch_size p.hidden_size ∧
    HasShape2 (GRU.forward p training gruTraining rand embedded target hidden).1
      p.batch_size (if training then p.batch_size else p.output_size) := by
  obtain ⟨hpl, hpw, hW, hb⟩ := hp
  have hx := dropoutStage_length training rand.inputCoins embedded
    p.batch_size he.1 hic
  have hg := gruLayers_shape p.sigmoid p.tanh p.dropout_hidden gruTraining
    p.batch_size p.hidden_size p.gruW rand.hiddenCoins
    (dropoutStage training rand.inputCoins embedded) hidden
    hpw hx (by rw [hh.1, hpl]) hh.2 hhc (by rw [← hpl] at hhcl; exact hhcl)
  constructor
  · rw [← hpl]
    exact hg.2
  · exact sampleStage_shape training target _ p.batch_size p.output_size
      (fullLogit_shape p _ p.batch_size hW hb hg.1) ht

/-! ### Sampling, dropout, determinism and mode lemmas -/

lemma sampleStage_entry (target : List Nat) (logit : Mat) (i j : Nat)
    (hj : j < target.length) :
    entry2 (sampleStage true target logit) i j =
      entry2 logit i (target.getD j 0) := by
  by_cases hi : i < logit.length
  · have hi2 : i < (logit.map fun row => target.map fun t => row.getD t 0).length := by
      simpa using hi
    simp only [sampleStage, if_true, entry2]
    rw [List.getD_eq_getElem _ _ hi2, List.getElem_map,
      List.getD_eq_getElem _ _ hj, List.getD_eq_getElem _ _ hi]
    rw [List.getD_eq_getElem _ _ (by simpa using hj), List.getElem_map]
  · have h1 : (logit.map fun row => target.map fun t => row.getD t 0).getD i [] = [] :=
      List.getD_eq_default _ _ (by simpa using hi)
    have h2 : logit.getD i [] = [] := List.getD_eq_default _ _ (by omega)
    simp only [sampleStage, if_true, entry2, h1, h2]
    rfl

lemma inputDropout_getD (coins : List ℚ) (embedded : Mat) (i : Nat)
    (hi : i < embedded.length) (hlen : coins.length = embedded.length) :
    (inputDropout coins embedded).getD i [] =
      (embedded.getD i []).map fun a => a * coins.getD i 0 := by
  have hi2 : i < (inputDropout coins embedded).length := by
    simp [inputDropout]
    omega
  rw [List.getD_eq_getElem _ _ hi2]
  rw [List.getD_eq_getElem _ _ hi, List.getD_eq_getElem _ _ (by omega : i < coins.length)]
  exact List.getElem_zipWith

lemma gruLayers_eval_coins (sigmoid tanh : ℚ → ℚ) (pdrop : ℚ) :
    ∀ (ws : List GRUCellW) (coins coins2 : List Mat) (x : Mat) (hs : Tensor3),
    gruLayers sigmoid tanh pdrop false ws coins x hs =
      gruLayers sigmoid tanh pdrop false ws coins2 x hs := by
  intro ws
  induction ws with
  | nil => intro coins coins2 x hs; rfl
  | cons w ws ih =>
    intro coins coins2 x hs
    show ((gruLayers sigmoid tanh pdrop false ws coins.tail
        (List.zipWith (gruCell sigmoid tanh w) x (hs.headD [])) hs.tail).1,
      List.zipWith (gruCell sigmoid tanh w) x (hs.headD []) ::
        (gruLayers sigmoid tanh pdrop false ws coins.tail
          (List.zipWith (gruCell sigmoid tanh w) x (hs.headD [])) hs.tail).2) =
      ((gruLayers sigmoid tanh pdrop false ws coins2.tail
        (List.zipWith (gruCell sigmoid tanh w) x (hs.headD [])) hs.tail).1,
      List.zipWith (gruCell sigmoid tanh w) x (hs.headD []) ::
        (gruLayers sigmoid tanh pdrop false ws coins2.tail
          (List.zipWith (gruCell sigmoid tanh w) x (hs.headD [])) hs.tail).2)
    rw [ih coins.tail coins2.tail]

lemma map_const_eq_self {l : List Bool} {b : Bool} (h : ∀ g ∈ l, g = b) :
    (l.map fun _ => b) = l := by
  induction l with
  | nil => rfl
  | cons a l ih =>
    rw [List.map_cons, h a (List.mem_cons_self a l),
      ih fun g hg => h g (List.mem_cons_of_mem a hg)]

/-- C3: in training mode, column `j` of the `(B, B)` logit matrix
returned by `forward` equals column `target[j]` of the full `(B, C)`
logit matrix computed before sampling; consequently, two positions with
equal targets have numerically identical columns. -/
theorem training_sampled_columns (p : GRUParams) (gruTraining : Bool)
    (rand : ForwardRand)
    (embedded : Mat) (target : List Nat) (hidden : Tensor3) (j k : Nat)
    (hj : j < target.length) (hk : k < target.length) :
    (∀ i, entry2 (GRU.forward p true gruTraining rand embedded target hidden).1 i j =
      entry2 (forwardFull p true gruTraining rand embedded hidden) i
        (target.getD j 0)) ∧
    (target.getD j 0 = target.getD k 0 →
      ∀ i, entry2 (GRU.forward p true gruTraining rand embedded target hidden).1 i j =
        entry2 (GRU.forward p true gruTraining rand embedded target hidden).1 i k) := by
  have hfw : (GRU.forward p true gruTraining rand embedded target hidden).1 =
      sampleStage true target
        (forwardFull p true gruTraining rand embedded hidden) := rfl
  constructor
  · intro i
    rw [hfw, sampleStage_entry _ _ _ _ hj]
  · intro heq i
    rw [hfw, sampleStage_entry _ _ _ _ hj, sampleStage_entry _ _ _ _ hk, heq]

/-- C4: in training mode the input dropout of `forward` is row-wise —
when every coin is 0 or 1, each row of the dropped-out batch is either
exactly the original row or the all-zero row (one coin per row
multiplies the whole feature vector); in inference mode `forward` is
computed from the embedded input unchanged, with no dropout stage. -/
theorem input_dropout_rowwise (p : GRUParams) (gruTraining : Bool)
    (rand : ForwardRand)
    (embedded : Mat) (target : List Nat) (hidden : Tensor3)
    (hcoins : ∀ c ∈ rand.inputCoins, c = 0 ∨ c = 1)
    (hlen : rand.inputCoins.length = embedded.length) :
    (∀ i, i < embedded.length →
      (inputDropout rand.inputCoins embedded).getD i [] = embedded.getD i [] ∨
      (inputDropout rand.inputCoins embedded).getD i [] =
        (embedded.getD i []).map fun _ => 0) ∧
    dropoutStage true rand.inputCoins embedded =
      inputDropout rand.inputCoins embedded ∧
    dropoutStage false rand.inputCoins embedded = embedded ∧
    GRU.forward p false gruTraining rand embedded target hidden =
      (sampleStage false target (fullLogit p
        (gruLayers p.sigmoid p.tanh p.dropout_hidden gruTraining p.gruW
          rand.hiddenCoins embedded hidden).1),
       (gruLayers p.sigmoid p.tanh p.dropout_hidden gruTraining p.gruW
          rand.hiddenCoins embedded hidden).2) := by
  refine ⟨?_, rfl, rfl, rfl⟩
  intro i hi
  rw [inputDropout_getD rand.inputCoins embedded i hi hlen]
  have hcmem : rand.inputCoins.getD i 0 ∈ rand.inputCoins := by
    have hi' : i < rand.inputCoins.length := by omega
    rw [List.getD_eq_getElem _ _ hi']
    exact List.getElem_mem hi'
  rcases hcoins _ hcmem with hc | hc
  · right
    rw [hc]
    simp
  · left
    rw [hc]
    simp

/-- C5 counterexample: with the layer's training flag false, `forward`
is not deterministic in the reachable state left by construction with
`training=False`, where the recurrent submodule's own mode flag is still
true: at two stacked layers and hidden dropout 1/2, two calls on the
identical `(embedded, hidden)` pair that consume different inter-layer
Bernoulli masks return different logits and hidden states. -/
theorem inference_forward_stochastic_cex :
    GRU.forward cexParams false true ⟨[], [[[1]]]⟩ [[1]] [0] [[[0]], [[0]]] ≠
      GRU.forward cexParams false true ⟨[], [[[0]]]⟩ [[1]] [0] [[[0]], [[0]]] := by
  have h1 : GRU.forward cexParams false true ⟨[], [[[1]]]⟩ [[1]] [0] [[[0]], [[0]]] =
      ([[-703]], [[[-10]], [[-703]]]) := by
    norm_num [GRU.forward, forwardFull, fullLogit, sampleStage, dropoutStage,
      gruLayers, gruCell, interDropout, linear, dot, vadd, vmul, oneMinus,
      cexParams]
  have h2 : GRU.forward cexParams false true ⟨[], [[[0]]]⟩ [[1]] [0] [[[0]], [[0]]] =
      ([[-3]], [[[-10]], [[-3]]]) := by
    norm_num [GRU.forward, forwardFull, fullLogit, sampleStage, dropoutStage,
      gruLayers, gruCell, interDropout, linear, dot, vadd, vmul, oneMinus,
      cexParams]
  rw [h1, h2]
  intro hEq
  have hnum : ((-703 : ℚ)) = -3 := by
    have h3 := congrArg (fun q => entry2 q.1 0 0) hEq
    simp only [entry2, List.getD_cons_zero] at h3
    exact h3
  norm_num at hnum

/-- C5 (amended): in inference mode and with the recurrent stack's own
dropout mode also disabled — the mode-consistent state every
`switch_mode` call establishes, though construction with
`training=False` does not — `forward` is deterministic: for the same
parameters and the identical `(embedded, hidden)` pair (and target), the
result does not depend on the stochastic draws, so two calls return
identical logits and identical hidden states. -/
theorem inference_forward_deterministic (p : GRUParams) (r1 r2 : ForwardRand)
    (embedded : Mat) (target : List Nat) (hidden : Tensor3) :
    GRU.forward p false false r1 embedded target hidden =
      GRU.forward p false false r2 embedded target hidden := by
  have h := gruLayers_eval_coins p.sigmoid p.tanh p.dropout_hidden p.gruW
    r1.hiddenCoins r2.hiddenCoins embedded hidden
  show (sampleStage false target (fullLogit p
      (gruLayers p.sigmoid p.tanh p.dropout_hidden false p.gruW
        r1.hiddenCoins embedded hidden).1),
    (gruLayers p.sigmoid p.tanh p.dropout_hidden false p.gruW
        r1.hiddenCoins embedded hidden).2) =
    (sampleStage false target (fullLogit p
      (gruLayers p.sigmoid p.tanh p.dropout_hidden false p.gruW
        r2.hiddenCoins embedded hidden).1),
    (gruLayers p.sigmoid p.tanh p.dropout_hidden false p.gruW
        r2.hiddenCoins embedded hidden).2)
  rw [h]

/-- C7: after every `switch_mode` call the layer is mode-consistent: the
stored training flag is negated, every parameter's gradient-tracking
flag equals the new flag, the recurrent stack's dropout mode equals the
new flag, and the parameter list is untouched otherwise. -/
theorem switch_mode_consistency (s : ModeState) :
    (GRU.switch_mode s).training = !s.training ∧
    (∀ g ∈ (GRU.switch_mode s).paramsGrad, g = (GRU.switch_mode s).training) ∧
    (GRU.switch_mode s).gruTraining = (GRU.switch_mode s).training ∧
    (GRU.switch_mode s).paramsGrad.length = s.paramsGrad.length := by
  refine ⟨rfl, ?_, rfl, by simp [GRU.switch_mode]⟩
  intro g hg
  obtain ⟨a, _, hEq⟩ := List.mem_map.mp hg
  exact hEq.symm

/-- C6 counterexample: a layer constructed with `training=False` has
parameters with the engine-default `requires_grad=True`; after two
`switch_mode` calls every parameter ends with `requires_grad=False`, so
the original per-parameter gradient-tracking state is not restored. -/
theorem switch_mode_not_involutive_on_grads :
    ¬ ((GRU.switch_mode (GRU.switch_mode (initState false 1))).training =
        (initState false 1).training ∧
      (GRU.switch_mode (GRU.switch_mode (initState false 1))).paramsGrad =
        (initState false 1).paramsGrad) := by
  decide

/-- C6 (amended): calling `switch_mode` twice always restores the
original mode flag, and it restores the original per-parameter
gradient-tracking state exactly when that state agreed with the mode
flag beforehand (as after construction with `training=True`, or after
any earlier `switch_mode`); in general the second call sets every
parameter's `requires_grad` to the restored mode flag. -/
theorem switch_mode_twice_restores (s : ModeState)
    (hcons : ∀ g ∈ s.paramsGrad, g = s.training) :
    (GRU.switch_mode (GRU.switch_mode s)).training = s.training ∧
    (GRU.switch_mode (GRU.switch_mode s)).paramsGrad = s.paramsGrad ∧
    (GRU.switch_mode (GRU.switch_mode s)).gruTraining = s.training := by
  refine ⟨by simp [GRU.switch_mode], ?_, by simp [GRU.switch_mode]⟩
  have hmap : (GRU.switch_mode (GRU.switch_mode s)).paramsGrad =
      s.paramsGrad.map fun _ => !!s.training := by
    simp [GRU.switch_mode]
  rw [hmap]
  exact map_const_eq_self fun g hg => by rw [hcons g hg, Bool.not_not]

/-- C9: `init_hidden` returns the all-zero tensor of shape `(L, B, H)`
and is a pure function of the construction-time dimensions alone: any
two parameter records agreeing on `num_layers`, `batch_size` and
`hidden_size` yield the same result, whatever their other fields. -/
theorem init_hidden_zero (p q : GRUParams)
    (hL : p.num_layers = q.num_layers) (hB : p.batch_size = q.batch_size)
    (hH : p.hidden_size = q.hidden_size) :
    HasShape3 (GRU.init_hidden p) p.num_layers p.batch_size p.hidden_size ∧
    (∀ m ∈ GRU.init_hidden p, ∀ r ∈ m, ∀ a ∈ r, a = 0) ∧
    GRU.init_hidden p = GRU.init_hidden q := by
  refine ⟨⟨by simp [GRU.init_hidden], ?_⟩, ?_,
    by simp only [GRU.init_hidden, hL, hB, hH]⟩
  · intro m hm
    rw [List.eq_of_mem_replicate hm]
    exact ⟨by simp, fun r hr => by rw [List.eq_of_mem_replicate hr]; simp⟩
  · intro m hm r hr a ha
    rw [List.eq_of_mem_replicate hm] at hr
    rw [List.eq_of_mem_replicate hr] at ha
    exact List.eq_of_mem_replicate ha

lemma exists_getD_ne {l1 l2 : List ℤ} (hlen : l1.length = l2.length)
    (hne : l1 ≠ l2) : ∃ i, i < l1.length ∧ l1.getD i 0 ≠ l2.getD i 0 := by
  by_contra h
  push_neg at h
  apply hne
  apply List.ext_getElem hlen
  intro n h1 h2
  have hd := h n h1
  rwa [List.getD_eq_getElem _ _ h1, List.getD_eq_getElem _ _ h2] at hd

/-- C1: for every index vector of length `B` with every value in `[0, C)`,
`emb` succeeds and returns a `(B, C)` matrix that is all-zero except
exactly one `1` per row, at column `index[i]` of row `i` (stated as the
exact pointwise characterization of every entry); and for two successive
calls with different index vectors, no `1` set by the first call appears
in the result of the second call, because the buffer is fully zeroed
before each scatter. -/
theorem emb_one_hot_no_leak (B C : Nat) (s0 : EmbState) (i1 i2 : List ℤ)
    (hbuf : HasShape2 s0.onehot_buffer B C)
    (h1len : i1.length = B) (h2len : i2.length = B)
    (h1r : ∀ j ∈ i1, 0 ≤ j ∧ j < (C : ℤ))
    (h2r : ∀ j ∈ i2, 0 ≤ j ∧ j < (C : ℤ)) :
    ∃ r1 s1 r2 s2,
      GRU.emb s0 i1 = Except.ok (r1, s1) ∧
      GRU.emb s1 i2 = Except.ok (r2, s2) ∧
      HasShape2 (BufferRef.read r1 s1) B C ∧
      (∀ i, i < B → ∀ j,
        entry2 (BufferRef.read r1 s1) i j =
          if (j : ℤ) = i1.getD i 0 then 1 else 0) ∧
      HasShape2 (BufferRef.read r2 s2) B C ∧
      (∀ i, i < B → ∀ j,
        entry2 (BufferRef.read r2 s2) i j =
          if (j : ℤ) = i2.getD i 0 then 1 else 0) ∧
      (∀ i, i < B → i1.getD i 0 ≠ i2.getD i 0 →
        entry2 (BufferRef.read r2 s2) i (i1.getD i 0).toNat = 0) := by
  have shape1 := scatter_zero_shape s0.onehot_buffer i1 1 B C hbuf
  refine ⟨BufferRef.theBuffer, ⟨scatterRows (zeroAll s0.onehot_buffer) i1 1⟩,
    BufferRef.theBuffer, _, emb_ok s0 i1 B C hbuf h1len h1r,
    emb_ok _ i2 B C shape1 h2len h2r, shape1,
    ?_, scatter_zero_shape _ i2 1 B C shape1, ?_, ?_⟩
  · intro i hi j
    exact scatter_zero_entry s0.onehot_buffer i1 B C hbuf h1len h1r i j hi
  · intro i hi j
    exact scatter_zero_entry _ i2 B C shape1 h2len h2r i j hi
  · intro i hi hne
    have hval1 : i1.getD i 0 ∈ i1 := by
      have hi' : i < i1.length := by omega
      rw [List.getD_eq_getElem _ _ hi']; exact List.getElem_mem hi'
    obtain ⟨hv0, _⟩ := h1r _ hval1
    have hcast : ((i1.getD i 0).toNat : ℤ) = i1.getD i 0 := Int.toNat_of_nonneg hv0
    have e2 := scatter_zero_entry _ i2 B C shape1 h2len h2r i ((i1.getD i 0).toNat) hi
    rw [if_neg (fun h => hne (hcast.symm.trans h))] at e2
    exact e2

/-- C8: for every index vector containing a value outside `[0, C)`
(negative or at least `C`), `emb` fails with the scatter range fault
instead of returning a result. -/
theorem emb_out_of_range_fault (B C : Nat) (s : EmbState) (input : List ℤ)
    (hbuf : HasShape2 s.onehot_buffer B C)
    (hbad : ∃ j ∈ input, j < 0 ∨ (C : ℤ) ≤ j) :
    GRU.emb s input = Except.error "scatter index out of range" := by
  have hnot : ¬ scatterInRange (zeroAll s.onehot_buffer) input := by
    rintro ⟨hle, hall⟩
    obtain ⟨j, hj, hbadj⟩ := hbad
    obtain ⟨row, hrow, hpair⟩ := mem_zip_of_mem_left hj hle
    have hchk := hall (j, row) hpair
    obtain ⟨r, hr1, hr2⟩ := List.mem_map.mp hrow
    have hrl : row.length = C := by rw [← hr2]; simpa using hbuf.2 r hr1
    rw [hrl] at hchk
    omega
  simp [GRU.emb, scatter1, hnot]

/-- C10: the value `emb` returns aliases the layer's single persistent
one-hot buffer rather than a fresh allocation: after `emb i1` and then
`emb i2`, the handle returned by the first call reads (in the final
state) exactly what the second call's handle reads, namely the one-hot
encoding of `i2`; and when `i1 ≠ i2` it no longer reads what it read
right after the first call. -/
theorem emb_returns_alias (B C : Nat) (s0 : EmbState) (i1 i2 : List ℤ)
    (hbuf : HasShape2 s0.onehot_buffer B C)
    (h1len : i1.length = B) (h2len : i2.length = B)
    (h1r : ∀ j ∈ i1, 0 ≤ j ∧ j < (C : ℤ))
    (h2r : ∀ j ∈ i2, 0 ≤ j ∧ j < (C : ℤ)) :
    ∃ r1 s1 r2 s2,
      GRU.emb s0 i1 = Except.ok (r1, s1) ∧
      GRU.emb s1 i2 = Except.ok (r2, s2) ∧
      BufferRef.read r1 s2 = BufferRef.read r2 s2 ∧
      (∀ i, i < B → ∀ j,
        entry2 (BufferRef.read r1 s2) i j =
          if (j : ℤ) = i2.getD i 0 then 1 else 0) ∧
      (i1 ≠ i2 → BufferRef.read r1 s2 ≠ BufferRef.read r1 s1) := by
  have shape1 := scatter_zero_shape s0.onehot_buffer i1 1 B C hbuf
  refine ⟨BufferRef.theBuffer, ⟨scatterRows (zeroAll s0.onehot_buffer) i1 1⟩,
    BufferRef.theBuffer, _, emb_ok s0 i1 B C hbuf h1len h1r,
    emb_ok _ i2 B C shape1 h2len h2r, rfl, ?_, ?_⟩
  · intro i hi j
    exact scatter_zero_entry _ i2 B C shape1 h2len h2r i j hi
  · intro hne heq
    obtain ⟨i, hiB, hnei⟩ := exists_getD_ne (h1len.trans h2len.symm) hne
    have hi : i < B := by omega
    have hval1 : i1.getD i 0 ∈ i1 := by
      rw [List.getD_eq_getElem _ _ hiB]; exact List.getElem_mem hiB
    obtain ⟨hv0, _⟩ := h1r _ hval1
    have hcast : ((i1.getD i 0).toNat : ℤ) = i1.getD i 0 := Int.toNat_of_nonneg hv0
    have e1 : entry2 (scatterRows (zeroAll s0.onehot_buffer) i1 1) i
        (i1.getD i 0).toNat = 1 := by
      rw [scatter_zero_entry s0.onehot_buffer i1 B C hbuf h1len h1r i _ hi,
        if_pos hcast]
    have e2 : entry2 (scatterRows (zeroAll (scatterRows (zeroAll s0.onehot_buffer) i1 1)) i2 1) i
        (i1.getD i 0).toNat = 0 := by
      rw [scatter_zero_entry _ i2 B C shape1 h2len h2r i _ hi,
        if_neg (fun h => hnei (hcast.symm.trans h))]
    have hent : entry2 (scatterRows (zeroAll (scatterRows (zeroAll s0.onehot_buffer) i1 1)) i2 1) i
        (i1.getD i 0).toNat =
        entry2 (scatterRows (zeroAll s0.onehot_buffer) i1 1) i (i1.getD i 0).toNat :=
      congrArg (fun mm => entry2 mm i (i1.getD i 0).toNat) heq
    rw [e1, e2] at hent
    exact zero_ne_one hent

/-! ### Concrete witnesses -/

/-- Witness for C1 at `B = C = 2`, a junk-filled buffer, `i1 = [0, 1]`
and `i2 = [1, 1]`. -/
theorem emb_one_hot_no_leak_witness :
    ∃ r1 s1 r2 s2,
      GRU.emb ⟨[[5, 7], [3, 4]]⟩ [0, 1] = Except.ok (r1, s1) ∧
      GRU.emb s1 [1, 1] = Except.ok (r2, s2) ∧
      HasShape2 (BufferRef.read r1 s1) 2 2 ∧
      (∀ i, i < 2 → ∀ j,
        entry2 (BufferRef.read r1 s1) i j =
          if (j : ℤ) = ([0, 1] : List ℤ).getD i 0 then 1 else 0) ∧
      HasShape2 (BufferRef.read r2 s2) 2 2 ∧
      (∀ i, i < 2 → ∀ j,
        entry2 (BufferRef.read r2 s2) i j =
          if (j : ℤ) = ([1, 1] : List ℤ).getD i 0 then 1 else 0) ∧
      (∀ i, i < 2 → ([0, 1] : List ℤ).getD i 0 ≠ ([1, 1] : List ℤ).getD i 0 →
        entry2 (BufferRef.read r2 s2) i (([0, 1] : List ℤ).getD i 0).toNat = 0) :=
  emb_one_hot_no_leak 2 2 ⟨[[5, 7], [3, 4]]⟩ [0, 1] [1, 1]
    (by decide) (by decide) (by decide) (by decide) (by decide)

/-- Witness for C2 at the all-ones configuration, in training mode. -/
theorem forward_shapes_witness :
    HasShape3 (GRU.forward wParams true true ⟨[1], []⟩ [[1]] [0] [[[0]]]).2 1 1 1 ∧
    HasShape2 (GRU.forward wParams true true ⟨[1], []⟩ [[1]] [0] [[[0]]]).1 1 1 :=
  forward_shapes wParams true true ⟨[1], []⟩ [[1]] [0] [[[0]]]
    (by decide) (by decide) (by decide) (by decide) (by decide) (by decide)
    (by decide)

/-- Witness for C3 at target vector `[0, 0]`, whose two positions name
the same item. -/
theorem training_sampled_columns_witness :
    (∀ i, entry2 (GRU.forward wParams true true ⟨[1], []⟩ [[1]] [0, 0] [[[0]]]).1 i 0 =
      entry2 (forwardFull wParams true true ⟨[1], []⟩ [[1]] [[[0]]]) i
        (([0, 0] : List Nat).getD 0 0)) ∧
    (([0, 0] : List Nat).getD 0 0 = ([0, 0] : List Nat).getD 1 0 →
      ∀ i, entry2 (GRU.forward wParams true true ⟨[1], []⟩ [[1]] [0, 0] [[[0]]]).1 i 0 =
        entry2 (GRU.forward wParams true true ⟨[1], []⟩ [[1]] [0, 0] [[[0]]]).1 i 1) :=
  training_sampled_columns wParams true ⟨[1], []⟩ [[1]] [0, 0] [[[0]]] 0 1
    (by decide) (by decide)

/-- Witness for C4 at a two-row batch with coins `[1, 0]`. -/
theorem input_dropout_rowwise_witness :
    (∀ i, i < ([[1, 2], [3, 4]] : Mat).length →
      (inputDropout (ForwardRand.mk [1, 0] []).inputCoins [[1, 2], [3, 4]]).getD i [] =
        ([[1, 2], [3, 4]] : Mat).getD i [] ∨
      (inputDropout (ForwardRand.mk [1, 0] []).inputCoins [[1, 2], [3, 4]]).getD i [] =
        (([[1, 2], [3, 4]] : Mat).getD i []).map fun _ => 0) ∧
    dropoutStage true (ForwardRand.mk [1, 0] []).inputCoins [[1, 2], [3, 4]] =
      inputDropout (ForwardRand.mk [1, 0] []).inputCoins [[1, 2], [3, 4]] ∧
    dropoutStage false (ForwardRand.mk [1, 0] []).inputCoins [[1, 2], [3, 4]] =
      [[1, 2], [3, 4]] ∧
    GRU.forward wParams false true (ForwardRand.mk [1, 0] []) [[1, 2], [3, 4]] [0] [[[0]]] =
      (sampleStage false [0] (fullLogit wParams
        (gruLayers wParams.sigmoid wParams.tanh wParams.dropout_hidden true
          wParams.gruW (ForwardRand.mk [1, 0] []).hiddenCoins
          [[1, 2], [3, 4]] [[[0]]]).1),
       (gruLayers wParams.sigmoid wParams.tanh wParams.dropout_hidden true
          wParams.gruW (ForwardRand.mk [1, 0] []).hiddenCoins
          [[1, 2], [3, 4]] [[[0]]]).2) :=
  input_dropout_rowwise wParams true (ForwardRand.mk [1, 0] []) [[1, 2], [3, 4]]
    [0] [[[0]]] (by decide) (by decide)

/-- Witness for C6 (amended) at a default-constructed training-mode
layer with two parameters. -/
theorem switch_mode_twice_restores_witness :
    (GRU.switch_mode (GRU.switch_mode (initState true 2))).training =
      (initState true 2).training ∧
    (GRU.switch_mode (GRU.switch_mode (initState true 2))).paramsGrad =
      (initState true 2).paramsGrad ∧
    (GRU.switch_mode (GRU.switch_mode (initState true 2))).gruTraining =
      (initState true 2).training :=
  switch_mode_twice_restores (initState true 2) (by decide)

/-- Witness for C8: index `2` is outside `[0, 2)`. -/
theorem emb_out_of_range_fault_witness :
    GRU.emb ⟨[[0, 0], [0, 0]]⟩ [0, 2] =
      Except.error "scatter index out of range" :=
  emb_out_of_range_fault 2 2 ⟨[[0, 0], [0, 0]]⟩ [0, 2] (by decide) (by decide)

/-- Witness for C9 at two parameter records sharing only the
dimensions. -/
theorem init_hidden_zero_witness :
    HasShape3 (GRU.init_hidden wParams) 1 1 1 ∧
    (∀ m ∈ GRU.init_hidden wParams, ∀ r ∈ m, ∀ a ∈ r, a = 0) ∧
    GRU.init_hidden wParams = GRU.init_hidden wParams2 :=
  init_hidden_zero wParams wParams2 rfl rfl rfl

/-- Witness for C10 at `B = 1`, `C = 2`, `i1 = [0]`, `i2 = [1]`. -/
theorem emb_returns_alias_witness :
    ∃ r1 s1 r2 s2,
      GRU.emb ⟨[[9, 9]]⟩ [0] = Except.ok (r1, s1) ∧
      GRU.emb s1 [1] = Except.ok (r2, s2) ∧
      BufferRef.read r1 s2 = BufferRef.read r2 s2 ∧
      (∀ i, i < 1 → ∀ j,
        entry2 (BufferRef.read r1 s2) i j =
          if (j : ℤ) = ([1] : List ℤ).getD i 0 then 1 else 0) ∧
      (([0] : List ℤ) ≠ [1] → BufferRef.read r1 s2 ≠ BufferRef.read r1 s1) :=
  emb_returns_alias 1 2 ⟨[[9, 9]]⟩ [0] [1]
    (by decide) (by decide) (by decide) (by decide) (by decide)

end PyGRU4REC
